import Mathlib

/-!
Shallow embedding of the DedOneginSort line-sorting engine (src/Text.h).

Characters are UTF-16 code units modelled as `Nat` (values below 2 ^ 16);
`size_t` arithmetic is modelled as `Nat` arithmetic modulo 2 ^ 64.  An
`IntegratedString` is a view of a line: the list of code units it can address
(`ptr_[0] .. ptr_[size_-1]`).  Every raw buffer access of the C++ code is
modelled as a checked lookup (`List.get?`): an access outside the view's
bounds yields `none`, which propagates, so a comparator run that returns
`some r` performed only in-bounds accesses.
-/

namespace OneginSort

/-- Modulus of C++ `size_t` arithmetic (64-bit unsigned). -/
def SIZE_T_MOD : Nat := 2 ^ 64

/-- Modulus of `char16_t` values. -/
def UNIT_MOD : Nat := 2 ^ 16

/-- The constant `UTF16_NEWLINE = char16_t(0xfeff000a)` of src/Text.h: the
wide literal is truncated to 16 bits by the `char16_t` conversion. -/
def UTF16_NEWLINE : Nat := 0xfeff000a % UNIT_MOD

/-- `htobe16` on a little-endian host: byte-swap of a 16-bit value.  The
argument is first reduced to its `char16_t` value. -/
def htobe16 (c : Nat) : Nat := (c % UNIT_MOD) / 256 + 256 * (c % 256)

/-- `utf16_comp_le` of src/Text.h: three-way comparison of the byte-swapped
values, -1 / 0 / 1. -/
def utf16_comp_le (c1 c2 : Nat) : Int :=
  if htobe16 c1 < htobe16 c2 then -1
  else if htobe16 c1 = htobe16 c2 then 0
  else 1

/-- The `PROHIBITED_` table of src/Text.h: the code units of the eleven
characters of the literal holding dot, comma, exclamation mark, colon,
semicolon, double quote, question mark, hyphen, both parentheses and space
(`N_PROHIBITED_ = 11` covers the whole literal). -/
def PROHIBITED : List Nat := [46, 44, 33, 58, 59, 34, 63, 45, 40, 41, 32]

/-- `IntegratedString::isProhibitedSymbol`: linear scan of `PROHIBITED_`. -/
def isProhibitedSymbol (c : Nat) : Bool := PROHIBITED.contains c

/-- `utf16_count(str, symbol)` of src/Text.h: counts occurrences of `symbol`
scanning until the first NUL unit. -/
def utf16_count (str : List Nat) (symbol : Nat) : Nat :=
  (str.takeWhile (fun c => c != 0)).count symbol

/-- A line view: `ptr_` + `size_` of `IntegratedString`, modelled as the list
of code units the view addresses. -/
structure IntegratedString where
  content : List Nat
deriving DecidableEq

/-- `IntegratedString::getSize`. -/
def IntegratedString.getSize (s : IntegratedString) : Nat := s.content.length

/-- `size_t` subtraction of 1 (`getSize() - 1`): wraps around at zero. -/
def sizeTPred (n : Nat) : Nat := (n + (SIZE_T_MOD - 1)) % SIZE_T_MOD

/-- The buffer index `start + direction * ind` computed in `size_t`
arithmetic (the `int` direction is converted to `size_t`, products and sums
wrap modulo 2 ^ 64). -/
def dirIdx (start : Nat) (direction : Int) (ind : Nat) : Nat :=
  (((start : Int) + direction * (ind : Int)) % (SIZE_T_MOD : Int)).toNat

/-- A checked read of `ptr[i]`: `none` when `i` is outside the view. -/
def readUnit (content : List Nat) (i : Nat) : Option Nat := content.get? i

/-- `IntegratedString::skipProhibited`: reads `ptr[start + direction * ind]`
(unguarded in the C++ source — the read is checked here) and, when the unit
is prohibited, reports `true` together with the incremented index. -/
def skipProhibited (content : List Nat) (start ind : Nat) (direction : Int) :
    Option (Bool × Nat) :=
  match readUnit content (dirIdx start direction ind) with
  | none => none
  | some c => if isProhibitedSymbol c then some (true, ind + 1) else some (false, ind)

/-- `IntegratedString::advanceUntilNotProhibited`: advances `ind` while
`ind < size` and the unit at `start + direction * ind` is prohibited.  The
bound test precedes the read, exactly as in the `&&` of the source. -/
def advanceUntilNotProhibited (content : List Nat) (start size ind : Nat)
    (direction : Int) : Option Nat :=
  if h : ind < size then
    match readUnit content (dirIdx start direction ind) with
    | none => none
    | some c =>
      if isProhibitedSymbol c then
        advanceUntilNotProhibited content start size (ind + 1) direction
      else
        some ind
  else
    some ind
termination_by size - ind
decreasing_by omega

/-- The scanning loop of `IntegratedString::directionalCompare` together with
its epilogue: while both indices are in bounds, skip prohibited units (left
operand first, mirroring the short-circuit `||`), otherwise three-way compare
the two current units, returning early on a difference; once either index is
out of bounds, advance both past trailing prohibited units and report
`indLHS >= size && indRHS < that.size`. -/
def directionalCompareLoop (a b : IntegratedString) (startLHS startRHS : Nat)
    (direction : Int) (indLHS indRHS : Nat) : Option Bool :=
  if h : indLHS < a.getSize ∧ indRHS < b.getSize then
    match skipProhibited a.content startLHS indLHS direction with
    | none => none
    | some (true, _) =>
        directionalCompareLoop a b startLHS startRHS direction (indLHS + 1) indRHS
    | some (false, _) =>
      match skipProhibited b.content startRHS indRHS direction with
      | none => none
      | some (true, _) =>
          directionalCompareLoop a b startLHS startRHS direction indLHS (indRHS + 1)
      | some (false, _) =>
        match readUnit a.content (dirIdx startLHS direction indLHS),
              readUnit b.content (dirIdx startRHS direction indRHS) with
        | some cL, some cR =>
          if utf16_comp_le cL cR < 0 then some true
          else if 0 < utf16_comp_le cL cR then some false
          else directionalCompareLoop a b startLHS startRHS direction (indLHS + 1) (indRHS + 1)
        | _, _ => none
  else
    match advanceUntilNotProhibited a.content startLHS a.getSize indLHS direction,
          advanceUntilNotProhibited b.content startRHS b.getSize indRHS direction with
    | some iL, some iR => some (decide (a.getSize ≤ iL) && decide (iR < b.getSize))
    | _, _ => none
termination_by (a.getSize - indLHS) + (b.getSize - indRHS)
decreasing_by all_goals omega

/-- `IntegratedString::directionalCompare(that, startLHS, startRHS, direction)`.
The `assert(abs(direction) == 1)` is modelled as a guard. -/
def IntegratedString.directionalCompare (a b : IntegratedString)
    (startLHS startRHS : Nat) (direction : Int) : Option Bool :=
  if direction.natAbs = 1 then
    directionalCompareLoop a b startLHS startRHS direction 0 0
  else none

/-- `IntegratedString::operator<`: `directionalCompare(that)` with the default
arguments `startLHS = 0`, `startRHS = 0`, `direction = 1`. -/
def IntegratedString.lt (a b : IntegratedString) : Option Bool :=
  a.directionalCompare b 0 0 1

/-- `IntegratedString::compareReversed`:
`directionalCompare(that, getSize() - 1, that.getSize() - 1, -1)`, the start
offsets computed in `size_t` arithmetic (they wrap for an empty view). -/
def IntegratedString.compareReversed (a b : IntegratedString) : Option Bool :=
  a.directionalCompare b (sizeTPred a.getSize) (sizeTPred b.getSize) (-1)

/-- `reverseStringComparator` of src/Text.h. -/
def reverseStringComparator (lhs rhs : IntegratedString) : Option Bool :=
  lhs.compareReversed rhs

/-! Specification-side vocabulary used to characterise the comparator. -/

/-- The ignorable-stripped content of a scanned sequence: the significant
(non-prohibited) units in scan order. -/
def stripProhibited (l : List Nat) : List Nat :=
  l.filter (fun c => !isProhibitedSymbol c)

/-- Lexicographic strict order on unit sequences under the byte-swapped
(`htobe16`) unit order. -/
def unitLexLt : List Nat → List Nat → Bool
  | [], [] => false
  | [], _ :: _ => true
  | _ :: _, [] => false
  | c1 :: l1, c2 :: l2 =>
    if htobe16 c1 < htobe16 c2 then true
    else if htobe16 c2 < htobe16 c1 then false
    else unitLexLt l1 l2

/-- `A` is a strict prefix of `B`. -/
def strictPrefixUnits (A B : List Nat) : Bool :=
  A.isPrefixOf B && !(B.isPrefixOf A)

/-! The `Text` table (src/Text.h).  The buffer is the list of the file's code
units; line views are represented by their content. -/

/-- The splitting loop of `Text::separateBufferIntoLines`: walks the units
after the first one, closing the current line at each newline unit. -/
def separateLoop (currLine : List Nat) : List Nat → List (List Nat)
  | [] => [currLine.reverse]
  | c :: rest =>
    if c = 10 then currLine.reverse :: separateLoop [] rest
    else separateLoop (c :: currLine) rest

/-- `nLines_ = utf16_count(buffer_, newline) + 1` of
`Text::separateBufferIntoLines`. -/
def nLinesOf (buffer : List Nat) : Nat := utf16_count buffer 10 + 1

/-- `Text::separateBufferIntoLines`: allocates `nLines_` default (empty)
views, then walks the buffer from index 1 (`currBeginning = buffer_ + 1`,
`i = 1`), writing one view per segment between newline units; slots beyond
the written ones keep the default empty view.  When the buffer would make the
loop write past the allocated array (more segments than `nLines_`), the C++
code overflows the heap; that situation is modelled as `none`. -/
def Text.separateBufferIntoLines (buffer : List Nat) : Option (List IntegratedString) :=
  if ((separateLoop [] (buffer.drop 1)).map IntegratedString.mk).length ≤ nLinesOf buffer then
    some ((separateLoop [] (buffer.drop 1)).map IntegratedString.mk ++
      List.replicate
        (nLinesOf buffer - ((separateLoop [] (buffer.drop 1)).map IntegratedString.mk).length)
        (IntegratedString.mk []))
  else none

/-- `Text::shrinkEmptyLines`:
`while (strings_[nLines_ - 1].getSize() == 0 && nLines_ > 0) --nLines_;`.
The element access is evaluated before the `nLines_ > 0` test, so with
`nLines_ = 0` the loop reads `strings_[SIZE_MAX]` — an out-of-bounds access,
modelled as `none` — and only then stops (the second conjunct is false). -/
def shrinkEmptyLines (strings : List IntegratedString) : Nat → Option Nat
  | 0 =>
    match strings.get? (sizeTPred 0) with
    | none => none
    | some _ => some 0
  | n + 1 =>
    match strings.get? (sizeTPred (n + 1)) with
    | none => none
    | some s =>
      if s.getSize = 0 then shrinkEmptyLines strings n
      else some (n + 1)

/-- The `Text` table: the shared buffer, the current order of line views
(`strings_`, of length `nLines_`) and the original order (`original_`). -/
structure Text where
  buffer : List Nat
  strings : List IntegratedString
  original : List IntegratedString
deriving DecidableEq

/-- `Text::printToFile`: one leading unit from the buffer start, then each
view's content followed by one `UTF16_NEWLINE` unit. -/
def Text.printToFile (t : Text) : List Nat :=
  t.buffer.take 1 ++
    (t.strings.map (fun s => s.content ++ [UTF16_NEWLINE])).flatten

/-- `LineOrder`: the vector copy of the current line order taken by
`Text::getOrder`. -/
structure LineOrder where
  lines : List IntegratedString
deriving DecidableEq

/-- `Text::getOrder`: copies the current order into an independent
`LineOrder`. -/
def Text.getOrder (t : Text) : LineOrder := LineOrder.mk t.strings

/-- Insertion step of the model of `std::sort`. -/
def insertSorted (comp : IntegratedString → IntegratedString → Bool)
    (x : IntegratedString) : List IntegratedString → List IntegratedString
  | [] => [x]
  | y :: ys => if comp x y then x :: y :: ys else y :: insertSorted comp x ys

/-- Model of `std::sort(strings_, strings_ + nLines_, comp)`: a sorting
function producing some reordering of the input (insertion sort). -/
def sortLines (comp : IntegratedString → IntegratedString → Bool) :
    List IntegratedString → List IntegratedString
  | [] => []
  | x :: xs => insertSorted comp x (sortLines comp xs)

/-- `Text::sort(comp)`: replaces the current order with the sorted one. -/
def Text.sort (t : Text) (comp : IntegratedString → IntegratedString → Bool) : Text :=
  Text.mk t.buffer (sortLines comp t.strings) t.original

/-- `Text::setOrder`: `assert(order.lines_.size() == nLines_)` then a copy of
the saved order over `strings_`.  The assertion is modelled as a guard: on a
size mismatch the call is rejected (`none`) with no mutation. -/
def Text.setOrder (t : Text) (order : LineOrder) : Option Text :=
  if order.lines.length = t.strings.length then
    some (Text.mk t.buffer order.lines t.original)
  else none

/-- `Text::recoverOriginal`: copies `original_` over `strings_`. -/
def Text.recoverOriginal (t : Text) : Text :=
  Text.mk t.buffer t.original t.original

/-! Specification-side vocabulary for the split. -/

/-- Joins segments with a separator unit between consecutive segments. -/
def intercalateSep (sep : Nat) : List (List Nat) → List Nat
  | [] => []
  | [l] => l
  | l :: l2 :: ls => l ++ sep :: intercalateSep sep (l2 :: ls)

/-- The split stated by the specification text: logical lines are the code
units between consecutive separators, the first line starting at
start-of-file (index 0, not 1). -/
def linesFromFileStart (buffer : List Nat) : List IntegratedString :=
  (separateLoop [] buffer).map IntegratedString.mk

/-! Helper lemmas: the scanned sequence of a comparator run. -/

lemma SIZE_T_MOD_eq : SIZE_T_MOD = 18446744073709551616 := by norm_num [SIZE_T_MOD]

lemma UNIT_MOD_eq : UNIT_MOD = 65536 := by norm_num [UNIT_MOD]

lemma dirIdx_forward (i : Nat) (h : i < SIZE_T_MOD) : dirIdx 0 1 i = i := by
  unfold dirIdx
  have h1 : ((0 : Nat) : Int) + 1 * (i : Int) = (i : Int) := by push_cast; ring
  rw [h1, Int.emod_eq_of_lt (Int.natCast_nonneg i) (by exact_mod_cast h), Int.toNat_natCast]

lemma dirIdx_backward (s i : Nat) (hle : i ≤ s) (hs : s < SIZE_T_MOD) :
    dirIdx s (-1) i = s - i := by
  unfold dirIdx
  have h1 : ((s : Nat) : Int) + (-1) * (i : Int) = ((s - i : Nat) : Int) := by
    rw [Nat.cast_sub hle]
    ring
  rw [h1, Int.emod_eq_of_lt (Int.natCast_nonneg _)
      (by exact_mod_cast lt_of_le_of_lt (Nat.sub_le s i) hs), Int.toNat_natCast]

/-- The scan of a view starting at `start` with step `direction` visits
exactly the units of the list `sc`: position `i` of the scan reads `sc.get? i`. -/
def Scans (content : List Nat) (start : Nat) (direction : Int) (sc : List Nat) : Prop :=
  sc.length = content.length ∧
    ∀ i, i < content.length → readUnit content (dirIdx start direction i) = sc.get? i

lemma scans_forward (content : List Nat) (h : content.length < SIZE_T_MOD) :
    Scans content 0 1 content := by
  refine ⟨rfl, fun i hi => ?_⟩
  rw [dirIdx_forward i (lt_trans hi h)]
  rfl

lemma scans_backward (content : List Nat) (h : content.length < SIZE_T_MOD) :
    Scans content (sizeTPred content.length) (-1) content.reverse := by
  refine ⟨by simp, fun i hi => ?_⟩
  have hM : content.length < 18446744073709551616 := by rw [← SIZE_T_MOD_eq]; exact h
  have hstart : sizeTPred content.length = content.length - 1 := by
    simp only [sizeTPred, SIZE_T_MOD_eq]
    omega
  have hidx : dirIdx (sizeTPred content.length) (-1) i = content.length - 1 - i := by
    rw [hstart]
    exact dirIdx_backward (content.length - 1) i (by omega)
      (lt_of_le_of_lt (Nat.sub_le content.length 1) h)
  rw [hidx]
  unfold readUnit
  exact (List.get?_reverse hi).symm

lemma advance_eq_aux (content : List Nat) (start : Nat) (direction : Int)
    (sc : List Nat) (hsc : Scans content start direction sc) :
    ∀ k ind, content.length - ind ≤ k → ind ≤ content.length →
      advanceUntilNotProhibited content start content.length ind direction =
        some (content.length - ((sc.drop ind).dropWhile isProhibitedSymbol).length) := by
  intro k
  induction k with
  | zero =>
    intro ind hk hle
    have hind : ind = content.length := by omega
    subst hind
    rw [advanceUntilNotProhibited]
    rw [dif_neg (lt_irrefl _)]
    have hdrop : sc.drop content.length = [] := List.drop_eq_nil_of_le (le_of_eq hsc.1)
    rw [hdrop]
    simp
  | succ k ih =>
    intro ind hk hle
    by_cases hlt : ind < content.length
    · obtain ⟨hlen, hread⟩ := hsc
      have hi : ind < sc.length := by omega
      have hdropcons : sc.drop ind = sc.get ⟨ind, hi⟩ :: sc.drop (ind + 1) :=
        List.drop_eq_get_cons hi
      rw [advanceUntilNotProhibited]
      rw [dif_pos hlt]
      rw [hread ind hlt, List.get?_eq_get hi]
      by_cases hp : isProhibitedSymbol (sc.get ⟨ind, hi⟩)
      · simp only [hp, if_true]
        rw [ih (ind + 1) (by omega) (by omega)]
        rw [hdropcons, List.dropWhile_cons_of_pos hp]
      · simp only [hp, if_false]
        rw [hdropcons, List.dropWhile_cons_of_neg (by simpa using hp)]
        have hlen2 : (sc.get ⟨ind, hi⟩ :: sc.drop (ind + 1)).length = content.length - ind := by
          rw [List.length_cons, List.length_drop]
          omega
        rw [hlen2]
        have hsub : content.length - (content.length - ind) = ind := by omega
        rw [hsub]
        simp
    · have hind : ind = content.length := by omega
      subst hind
      rw [advanceUntilNotProhibited]
      rw [dif_neg (lt_irrefl _)]
      have hdrop : sc.drop content.length = [] := List.drop_eq_nil_of_le (le_of_eq hsc.1)
      rw [hdrop]
      simp

lemma advance_eq (content : List Nat) (start : Nat) (direction : Int)
    (sc : List Nat) (hsc : Scans content start direction sc)
    (ind : Nat) (hle : ind ≤ content.length) :
    advanceUntilNotProhibited content start content.length ind direction =
      some (content.length - ((sc.drop ind).dropWhile isProhibitedSymbol).length) :=
  advance_eq_aux content start direction sc hsc (content.length - ind) ind le_rfl hle

lemma strip_nil_iff (L : List Nat) :
    stripProhibited L = [] ↔ L.dropWhile isProhibitedSymbol = [] := by
  rw [stripProhibited, List.filter_eq_nil_iff, List.dropWhile_eq_nil_iff]
  constructor
  · intro h x hx
    simpa using h x hx
  · intro h x hx
    simpa using h x hx

lemma unitLexLt_nil_left (M : List Nat) : unitLexLt [] M = !M.isEmpty := by
  cases M <;> rfl

lemma unitLexLt_nil_right (L : List Nat) : unitLexLt L [] = false := by
  cases L <;> rfl

lemma strip_cons_pro {x : Nat} (h : isProhibitedSymbol x = true) (L : List Nat) :
    stripProhibited (x :: L) = stripProhibited L := by
  simp [stripProhibited, h]

lemma strip_cons_sig {x : Nat} (h : isProhibitedSymbol x = false) (L : List Nat) :
    stripProhibited (x :: L) = x :: stripProhibited L := by
  simp [stripProhibited, h]

lemma loop_exit_eq (a b : IntegratedString) (startL startR : Nat) (direction : Int)
    (sa sb : List Nat) (hsa : Scans a.content startL direction sa)
    (hsb : Scans b.content startR direction sb) (iL iR : Nat)
    (hout : ¬(iL < a.content.length ∧ iR < b.content.length))
    (hiL : iL ≤ a.content.length) (hiR : iR ≤ b.content.length) :
    directionalCompareLoop a b startL startR direction iL iR =
      some (unitLexLt (stripProhibited (sa.drop iL)) (stripProhibited (sb.drop iR))) := by
  rw [directionalCompareLoop]
  simp only [IntegratedString.getSize]
  rw [dif_neg hout]
  rw [advance_eq a.content startL direction sa hsa iL hiL,
      advance_eq b.content startR direction sb hsb iR hiR]
  rcases not_and_or.mp hout with h | h
  · have hA : a.content.length ≤ iL := Nat.le_of_not_lt h
    have hdAnil : sa.drop iL = [] := List.drop_eq_nil_of_le (by rw [hsa.1]; exact hA)
    rw [hdAnil]
    simp only [List.dropWhile_nil, List.length_nil, Nat.sub_zero, stripProhibited,
      List.filter_nil]
    rw [unitLexLt_nil_left]
    have hd1 : decide (a.content.length ≤ a.content.length) = true := by simp
    rw [hd1, Bool.true_and]
    by_cases hB0 : (sb.drop iR).dropWhile isProhibitedSymbol = []
    · rw [hB0]
      simp only [List.length_nil, Nat.sub_zero]
      have hd2 : decide (b.content.length < b.content.length) = false := by simp
      rw [hd2]
      have hstrip : (sb.drop iR).filter (fun c => !isProhibitedSymbol c) = [] := by
        have := (strip_nil_iff (sb.drop iR)).mpr hB0
        simpa [stripProhibited] using this
      rw [hstrip]
      rfl
    · have hpos : 0 < ((sb.drop iR).dropWhile isProhibitedSymbol).length :=
        List.length_pos.mpr hB0
      have hle2 : ((sb.drop iR).dropWhile isProhibitedSymbol).length ≤ b.content.length := by
        have h1 : ((sb.drop iR).dropWhile isProhibitedSymbol).length ≤ (sb.drop iR).length :=
          (List.dropWhile_sublist _).length_le
        have h2 : (sb.drop iR).length = sb.length - iR := List.length_drop iR sb
        have h3 : sb.length = b.content.length := hsb.1
        omega
      have hd2 : decide (b.content.length -
          ((sb.drop iR).dropWhile isProhibitedSymbol).length < b.content.length) = true := by
        simp only [decide_eq_true_eq]
        omega
      rw [hd2]
      have hstrip : (sb.drop iR).filter (fun c => !isProhibitedSymbol c) ≠ [] := by
        intro hh
        exact hB0 ((strip_nil_iff (sb.drop iR)).mp (by simpa [stripProhibited] using hh))
      cases hE : (sb.drop iR).filter (fun c => !isProhibitedSymbol c) with
      | nil => exact absurd hE hstrip
      | cons c cs => rfl
  · have hB : b.content.length ≤ iR := Nat.le_of_not_lt h
    have hdBnil : sb.drop iR = [] := List.drop_eq_nil_of_le (by rw [hsb.1]; exact hB)
    rw [hdBnil]
    simp only [List.dropWhile_nil, List.length_nil, Nat.sub_zero, stripProhibited,
      List.filter_nil]
    rw [unitLexLt_nil_right]
    have hd2 : decide (b.content.length < b.content.length) = false := by simp
    rw [hd2, Bool.and_false]

lemma loop_eq_aux (a b : IntegratedString) (startL startR : Nat) (direction : Int)
    (sa sb : List Nat) (hsa : Scans a.content startL direction sa)
    (hsb : Scans b.content startR direction sb) :
    ∀ k iL iR, (a.content.length - iL) + (b.content.length - iR) ≤ k →
      iL ≤ a.content.length → iR ≤ b.content.length →
      directionalCompareLoop a b startL startR direction iL iR =
        some (unitLexLt (stripProhibited (sa.drop iL)) (stripProhibited (sb.drop iR))) := by
  intro k
  induction k with
  | zero =>
    intro iL iR hk hiL hiR
    exact loop_exit_eq a b startL startR direction sa sb hsa hsb iL iR (by omega) hiL hiR
  | succ k ih =>
    intro iL iR hk hiL hiR
    by_cases hin : iL < a.content.length ∧ iR < b.content.length
    · obtain ⟨hinL, hinR⟩ := hin
      have hiA : iL < sa.length := by rw [hsa.1]; exact hinL
      have hiB : iR < sb.length := by rw [hsb.1]; exact hinR
      have hdropA : sa.drop iL = sa[iL] :: sa.drop (iL + 1) :=
        List.drop_eq_getElem_cons hiA
      have hdropB : sb.drop iR = sb[iR] :: sb.drop (iR + 1) :=
        List.drop_eq_getElem_cons hiB
      have hreadA : readUnit a.content (dirIdx startL direction iL) = some sa[iL] := by
        rw [hsa.2 iL hinL, List.get?_eq_getElem?]
        exact List.getElem?_eq_getElem hiA
      have hreadB : readUnit b.content (dirIdx startR direction iR) = some sb[iR] := by
        rw [hsb.2 iR hinR, List.get?_eq_getElem?]
        exact List.getElem?_eq_getElem hiB
      rw [directionalCompareLoop]
      rw [dif_pos (show iL < a.getSize ∧ iR < b.getSize from ⟨hinL, hinR⟩)]
      by_cases hpA : isProhibitedSymbol sa[iL] = true
      · have hskipA : skipProhibited a.content startL iL direction = some (true, iL + 1) := by
          rw [skipProhibited, hreadA]
          simp only [hpA, if_true]
        simp only [hskipA]
        rw [ih (iL + 1) iR (by omega) (by omega) hiR]
        rw [hdropA, strip_cons_pro hpA]
      · have hpA' : isProhibitedSymbol sa[iL] = false := by simpa using hpA
        have hskipA : skipProhibited a.content startL iL direction = some (false, iL) := by
          rw [skipProhibited, hreadA]
          simp only [hpA', Bool.false_eq_true, if_false]
        simp only [hskipA]
        by_cases hpB : isProhibitedSymbol sb[iR] = true
        · have hskipB : skipProhibited b.content startR iR direction = some (true, iR + 1) := by
            rw [skipProhibited, hreadB]
            simp only [hpB, if_true]
          simp only [hskipB]
          rw [ih iL (iR + 1) (by omega) hiL (by omega)]
          rw [hdropB, strip_cons_pro hpB]
        · have hpB' : isProhibitedSymbol sb[iR] = false := by simpa using hpB
          have hskipB : skipProhibited b.content startR iR direction = some (false, iR) := by
            rw [skipProhibited, hreadB]
            simp only [hpB', Bool.false_eq_true, if_false]
          simp only [hskipB, hreadA, hreadB]
          rw [hdropA, hdropB, strip_cons_sig hpA', strip_cons_sig hpB']
          rcases Nat.lt_trichotomy (htobe16 sa[iL]) (htobe16 sb[iR]) with hlt | heq | hgt
          · have hc : utf16_comp_le sa[iL] sb[iR] = -1 := by
              simp [utf16_comp_le, hlt]
            rw [hc]
            rw [if_pos (show (-1 : Int) < 0 by norm_num)]
            simp only [unitLexLt]
            rw [if_pos hlt]
          · have hc : utf16_comp_le sa[iL] sb[iR] = 0 := by
              simp [utf16_comp_le, heq]
            rw [hc]
            rw [if_neg (lt_irrefl (0 : Int)), if_neg (lt_irrefl (0 : Int))]
            rw [ih (iL + 1) (iR + 1) (by omega) (by omega) (by omega)]
            simp only [unitLexLt]
            rw [if_neg (by omega), if_neg (by omega)]
          · have hc : utf16_comp_le sa[iL] sb[iR] = 1 := by
              have h1 : ¬htobe16 sa[iL] < htobe16 sb[iR] := by omega
              have h2 : ¬htobe16 sa[iL] = htobe16 sb[iR] := by omega
              simp [utf16_comp_le, h1, h2]
            rw [hc]
            rw [if_neg (show ¬(1 : Int) < 0 by norm_num), if_pos (show (0 : Int) < 1 by norm_num)]
            simp only [unitLexLt]
            rw [if_neg (by omega), if_pos hgt]
    · exact loop_exit_eq a b startL startR direction sa sb hsa hsb iL iR hin hiL hiR

lemma loop_eq (a b : IntegratedString) (startL startR : Nat) (direction : Int)
    (sa sb : List Nat) (hsa : Scans a.content startL direction sa)
    (hsb : Scans b.content startR direction sb) :
    directionalCompareLoop a b startL startR direction 0 0 =
      some (unitLexLt (stripProhibited sa) (stripProhibited sb)) := by
  have h := loop_eq_aux a b startL startR direction sa sb hsa hsb
    (a.content.length + b.content.length) 0 0 (by omega) (Nat.zero_le _) (Nat.zero_le _)
  simpa using h

/-- The forward comparator (`operator<`) performs only in-bounds accesses and
decides exactly the lexicographic order of the ignorable-stripped contents. -/
lemma lt_char (a b : IntegratedString)
    (ha : a.content.length < SIZE_T_MOD) (hb : b.content.length < SIZE_T_MOD) :
    a.lt b = some (unitLexLt (stripProhibited a.content) (stripProhibited b.content)) := by
  unfold IntegratedString.lt IntegratedString.directionalCompare
  rw [if_pos (by norm_num)]
  exact loop_eq a b 0 0 1 a.content b.content (scans_forward a.content ha)
    (scans_forward b.content hb)

/-- The backward comparator performs only in-bounds accesses and decides
exactly the lexicographic order of the ignorable-stripped reversed contents. -/
lemma compareReversed_char (a b : IntegratedString)
    (ha : a.content.length < SIZE_T_MOD) (hb : b.content.length < SIZE_T_MOD) :
    a.compareReversed b =
      some (unitLexLt (stripProhibited a.content.reverse) (stripProhibited b.content.reverse)) := by
  unfold IntegratedString.compareReversed IntegratedString.directionalCompare
  rw [if_pos (by norm_num)]
  exact loop_eq a b (sizeTPred a.getSize) (sizeTPred b.getSize) (-1)
    a.content.reverse b.content.reverse (scans_backward a.content ha)
    (scans_backward b.content hb)

/-! Order algebra of `unitLexLt`. -/

lemma unitLexLt_irrefl : ∀ A : List Nat, unitLexLt A A = false
  | [] => rfl
  | c :: l => by
    simp only [unitLexLt, lt_irrefl, if_false]
    exact unitLexLt_irrefl l

lemma unitLexLt_asymm : ∀ A B : List Nat, unitLexLt A B = true → unitLexLt B A = false
  | [], [] => by intro h; exact absurd h (by decide)
  | [], _ :: _ => fun _ => rfl
  | _ :: _, [] => by intro h; simp [unitLexLt] at h
  | c1 :: l1, c2 :: l2 => by
    intro h
    simp only [unitLexLt] at h ⊢
    by_cases h1 : htobe16 c1 < htobe16 c2
    · rw [if_neg (by omega), if_pos h1]
    · by_cases h2 : htobe16 c2 < htobe16 c1
      · rw [if_pos h2] at h
        rw [if_neg h1] at h
        exact absurd h (by decide)
      · rw [if_neg h1, if_neg h2] at h
        rw [if_neg h2, if_neg h1]
        exact unitLexLt_asymm l1 l2 h

lemma htobe16_inj {x y : Nat} (hx : x < UNIT_MOD) (hy : y < UNIT_MOD)
    (h : htobe16 x = htobe16 y) : x = y := by
  rw [UNIT_MOD_eq] at hx hy
  simp only [htobe16, UNIT_MOD_eq] at h
  rw [Nat.mod_eq_of_lt hx, Nat.mod_eq_of_lt hy] at h
  omega

lemma unitLexLt_conn : ∀ A B : List Nat, (∀ c ∈ A, c < UNIT_MOD) → (∀ c ∈ B, c < UNIT_MOD) →
    unitLexLt A B = false → unitLexLt B A = false → A = B
  | [], [], _, _, _, _ => rfl
  | [], _ :: _, _, _, hAB, _ => by simp [unitLexLt] at hAB
  | _ :: _, [], _, _, _, hBA => by simp [unitLexLt] at hBA
  | c1 :: l1, c2 :: l2, hA, hB, hAB, hBA => by
    simp only [unitLexLt] at hAB hBA
    by_cases h1 : htobe16 c1 < htobe16 c2
    · rw [if_pos h1] at hAB
      exact absurd hAB (by decide)
    · by_cases h2 : htobe16 c2 < htobe16 c1
      · rw [if_pos h2] at hBA
        exact absurd hBA (by decide)
      · rw [if_neg h1, if_neg h2] at hAB
        rw [if_neg h2, if_neg h1] at hBA
        have hc : c1 = c2 :=
          htobe16_inj (hA c1 (List.mem_cons_self c1 l1)) (hB c2 (List.mem_cons_self c2 l2))
            (by omega)
        have hl : l1 = l2 :=
          unitLexLt_conn l1 l2 (fun c hc => hA c (List.mem_cons_of_mem _ hc))
            (fun c hc => hB c (List.mem_cons_of_mem _ hc)) hAB hBA
        rw [hc, hl]

lemma strip_valid {L : List Nat} (h : ∀ c ∈ L, c < UNIT_MOD) :
    ∀ c ∈ stripProhibited L, c < UNIT_MOD :=
  fun c hc => h c (List.mem_of_mem_filter hc)

/-! Properties of the splitting loop. -/

lemma separateLoop_ne_nil : ∀ (rest acc : List Nat), separateLoop acc rest ≠ []
  | [], acc => by simp [separateLoop]
  | c :: rest, acc => by
    by_cases h : c = 10
    · simp [separateLoop, h]
    · simp only [separateLoop, if_neg h]
      exact separateLoop_ne_nil rest (c :: acc)

lemma intercalateSep_cons (sep : Nat) (l : List Nat) (L : List (List Nat)) (h : L ≠ []) :
    intercalateSep sep (l :: L) = l ++ sep :: intercalateSep sep L := by
  cases L with
  | nil => exact absurd rfl h
  | cons l2 ls => rfl

lemma separateLoop_intercalate : ∀ (rest acc : List Nat),
    intercalateSep 10 (separateLoop acc rest) = acc.reverse ++ rest
  | [], acc => by simp [separateLoop, intercalateSep]
  | c :: rest, acc => by
    by_cases h : c = 10
    · simp only [separateLoop]
      rw [if_pos h]
      rw [intercalateSep_cons 10 acc.reverse (separateLoop [] rest) (separateLoop_ne_nil rest [])]
      rw [separateLoop_intercalate rest []]
      rw [h]
      simp
    · simp only [separateLoop]
      rw [if_neg h]
      rw [separateLoop_intercalate rest (c :: acc)]
      simp

lemma separateLoop_no_sep : ∀ (rest acc : List Nat), (∀ x ∈ acc, x ≠ 10) →
    ∀ l ∈ separateLoop acc rest, (10 : Nat) ∉ l
  | [], acc => by
    intro hacc l hl
    simp only [separateLoop, List.mem_singleton] at hl
    subst hl
    intro hmem
    exact hacc 10 (List.mem_reverse.mp hmem) rfl
  | c :: rest, acc => by
    intro hacc l hl
    by_cases h : c = 10
    · simp only [separateLoop] at hl
      rw [if_pos h] at hl
      rcases List.mem_cons.mp hl with hl2 | hl2
      · subst hl2
        intro hmem
        exact hacc 10 (List.mem_reverse.mp hmem) rfl
      · exact separateLoop_no_sep rest [] (by simp) l hl2
    · simp only [separateLoop] at hl
      rw [if_neg h] at hl
      refine separateLoop_no_sep rest (c :: acc) ?_ l hl
      intro x hx
      rcases List.mem_cons.mp hx with hx | hx
      · rw [hx]; exact h
      · exact hacc x hx

lemma separateLoop_length : ∀ (rest acc : List Nat),
    (separateLoop acc rest).length = rest.count 10 + 1
  | [], acc => by simp [separateLoop]
  | c :: rest, acc => by
    by_cases h : c = 10
    · simp only [separateLoop]
      rw [if_pos h, h]
      simp only [List.length_cons, separateLoop_length rest []]
      rw [List.count_cons_self]
    · simp only [separateLoop]
      rw [if_neg h]
      rw [separateLoop_length rest (c :: acc)]
      rw [List.count_cons_of_ne (fun hc => h hc.symm)]

/-! Lengths through the model of the sort. -/

lemma insertSorted_length (comp : IntegratedString → IntegratedString → Bool)
    (x : IntegratedString) : ∀ l : List IntegratedString,
    (insertSorted comp x l).length = l.length + 1
  | [] => rfl
  | y :: ys => by
    by_cases h : comp x y
    · simp [insertSorted, h]
    · simp [insertSorted, h, insertSorted_length comp x ys]

lemma sortLines_length (comp : IntegratedString → IntegratedString → Bool) :
    ∀ l : List IntegratedString, (sortLines comp l).length = l.length
  | [] => rfl
  | x :: xs => by
    simp [sortLines, insertSorted_length, sortLines_length comp xs]

/-! Claim theorems. -/

/-- Claim C1, counterexample: the forward comparator reports the view holding
unit 97 as less than the view holding unit 98, yet the stripped content of the
first is not a strict prefix of the second's — so "less iff the left cursor
alone exhausted, i.e. strict ignorable-stripped prefix" fails as an iff. -/
theorem c1_counterexample :
    IntegratedString.lt (IntegratedString.mk [97]) (IntegratedString.mk [98]) = some true ∧
    strictPrefixUnits (stripProhibited (IntegratedString.mk [97]).content)
      (stripProhibited (IntegratedString.mk [98]).content) = false := by
  constructor
  · rw [lt_char (IntegratedString.mk [97]) (IntegratedString.mk [98]) (by decide) (by decide)]
    decide
  · decide

/-- Claim C1 (amended): for every pair of line views and each direction, the
directional comparator returns less exactly when the ignorable-stripped
scanned content of the left view is lexicographically smaller (in byte-swapped
unit order) than that of the right view — a strict stripped prefix, or a
smaller unit at the first significant difference; when both sides exhaust
together (equal stripped content) the result is not-less. -/
theorem c1_less_iff_stripped_lex (a b : IntegratedString)
    (ha : a.getSize < SIZE_T_MOD) (hb : b.getSize < SIZE_T_MOD) :
    a.lt b = some (unitLexLt (stripProhibited a.content) (stripProhibited b.content)) ∧
    a.compareReversed b =
      some (unitLexLt (stripProhibited a.content.reverse)
        (stripProhibited b.content.reverse)) :=
  ⟨lt_char a b ha hb, compareReversed_char a b ha hb⟩

/-- Claim C1 witness: the amended characterisation at two concrete views. -/
theorem c1_witness :
    (IntegratedString.mk [97]).getSize < SIZE_T_MOD ∧
    (IntegratedString.mk [97, 98]).getSize < SIZE_T_MOD ∧
    (IntegratedString.lt (IntegratedString.mk [97]) (IntegratedString.mk [97, 98]) =
        some (unitLexLt (stripProhibited (IntegratedString.mk [97]).content)
          (stripProhibited (IntegratedString.mk [97, 98]).content)) ∧
      IntegratedString.compareReversed (IntegratedString.mk [97]) (IntegratedString.mk [97, 98]) =
        some (unitLexLt (stripProhibited (IntegratedString.mk [97]).content.reverse)
          (stripProhibited (IntegratedString.mk [97, 98]).content.reverse))) :=
  ⟨by decide, by decide,
    c1_less_iff_stripped_lex (IntegratedString.mk [97]) (IntegratedString.mk [97, 98])
      (by decide) (by decide)⟩

/-- Claim C2, counterexample: a zero-length view IS reported as less than a
view holding the significant (non-ignorable) unit 97, refuting "comparing an
empty view against any view, in either argument position, yields not-less". -/
theorem c2_counterexample :
    IntegratedString.lt (IntegratedString.mk []) (IntegratedString.mk [97]) = some true ∧
    isProhibitedSymbol 97 = false := by
  constructor
  · rw [lt_char (IntegratedString.mk []) (IntegratedString.mk [97]) (by decide) (by decide)]
    decide
  · decide

/-- Claim C2 (amended): in both directions, no view is ever less than a
zero-length view; a zero-length view compared on the left yields not-less
exactly when the other view's content strips to nothing (ignorable-only or
empty), and yields less when the other view holds a significant unit. -/
theorem c2_empty_view (v : IntegratedString) (hv : v.getSize < SIZE_T_MOD) :
    IntegratedString.lt v (IntegratedString.mk []) = some false ∧
    IntegratedString.compareReversed v (IntegratedString.mk []) = some false ∧
    IntegratedString.lt (IntegratedString.mk []) v =
      some (!(stripProhibited v.content).isEmpty) ∧
    IntegratedString.compareReversed (IntegratedString.mk []) v =
      some (!(stripProhibited v.content.reverse).isEmpty) := by
  have h0 : (IntegratedString.mk ([] : List Nat)).getSize < SIZE_T_MOD := by decide
  refine ⟨?_, ?_, ?_, ?_⟩
  · rw [lt_char v (IntegratedString.mk []) hv h0]
    rw [show stripProhibited (IntegratedString.mk ([] : List Nat)).content = [] from rfl]
    rw [unitLexLt_nil_right]
  · rw [compareReversed_char v (IntegratedString.mk []) hv h0]
    rw [show stripProhibited (IntegratedString.mk ([] : List Nat)).content.reverse = [] from rfl]
    rw [unitLexLt_nil_right]
  · rw [lt_char (IntegratedString.mk []) v h0 hv]
    rw [show stripProhibited (IntegratedString.mk ([] : List Nat)).content = [] from rfl]
    rw [unitLexLt_nil_left]
  · rw [compareReversed_char (IntegratedString.mk []) v h0 hv]
    rw [show stripProhibited (IntegratedString.mk ([] : List Nat)).content.reverse = [] from rfl]
    rw [unitLexLt_nil_left]

/-- Claim C2 witness: the amended statement at an ignorable-only view. -/
theorem c2_witness :
    (IntegratedString.mk [46, 46]).getSize < SIZE_T_MOD ∧
    (IntegratedString.lt (IntegratedString.mk [46, 46]) (IntegratedString.mk []) = some false ∧
      IntegratedString.compareReversed (IntegratedString.mk [46, 46]) (IntegratedString.mk []) =
        some false ∧
      IntegratedString.lt (IntegratedString.mk []) (IntegratedString.mk [46, 46]) =
        some (!(stripProhibited (IntegratedString.mk [46, 46]).content).isEmpty) ∧
      IntegratedString.compareReversed (IntegratedString.mk []) (IntegratedString.mk [46, 46]) =
        some (!(stripProhibited (IntegratedString.mk [46, 46]).content.reverse).isEmpty)) :=
  ⟨by decide, c2_empty_view (IntegratedString.mk [46, 46]) (by decide)⟩

/-- Claim C3: for non-empty views of valid UTF-16 units, exactly one of
forward-less, reverse forward-less, or stripped-content equality holds; the
three cases are mutually exclusive, so the forward comparator is
antisymmetric. -/
theorem c3_forward_trichotomy (a b : IntegratedString)
    (hane : a.content ≠ []) (hbne : b.content ≠ [])
    (hav : ∀ c ∈ a.content, c < UNIT_MOD) (hbv : ∀ c ∈ b.content, c < UNIT_MOD)
    (ha : a.getSize < SIZE_T_MOD) (hb : b.getSize < SIZE_T_MOD) :
    (a.lt b = some true ∧ b.lt a = some false ∧
      stripProhibited a.content ≠ stripProhibited b.content) ∨
    (b.lt a = some true ∧ a.lt b = some false ∧
      stripProhibited a.content ≠ stripProhibited b.content) ∨
    (stripProhibited a.content = stripProhibited b.content ∧
      a.lt b = some false ∧ b.lt a = some false) := by
  have hA := lt_char a b ha hb
  have hB := lt_char b a hb ha
  by_cases h1 : unitLexLt (stripProhibited a.content) (stripProhibited b.content) = true
  · left
    refine ⟨by rw [hA, h1], by rw [hB, unitLexLt_asymm _ _ h1], ?_⟩
    intro he
    rw [he, unitLexLt_irrefl] at h1
    exact absurd h1 (by decide)
  · have h1f : unitLexLt (stripProhibited a.content) (stripProhibited b.content) = false :=
      Bool.eq_false_iff.mpr h1
    by_cases h2 : unitLexLt (stripProhibited b.content) (stripProhibited a.content) = true
    · right; left
      refine ⟨by rw [hB, h2], by rw [hA, unitLexLt_asymm _ _ h2], ?_⟩
      intro he
      rw [he, unitLexLt_irrefl] at h2
      exact absurd h2 (by decide)
    · have h2f : unitLexLt (stripProhibited b.content) (stripProhibited a.content) = false :=
        Bool.eq_false_iff.mpr h2
      right; right
      have heq := unitLexLt_conn (stripProhibited a.content) (stripProhibited b.content)
        (strip_valid hav) (strip_valid hbv) h1f h2f
      exact ⟨heq, by rw [hA, h1f], by rw [hB, h2f]⟩

/-- Claim C3 witness: the trichotomy at two concrete non-empty views. -/
theorem c3_witness :
    (IntegratedString.mk [98]).content ≠ [] ∧
    (IntegratedString.mk [97]).content ≠ [] ∧
    (∀ c ∈ (IntegratedString.mk [98]).content, c < UNIT_MOD) ∧
    (∀ c ∈ (IntegratedString.mk [97]).content, c < UNIT_MOD) ∧
    (IntegratedString.mk [98]).getSize < SIZE_T_MOD ∧
    (IntegratedString.mk [97]).getSize < SIZE_T_MOD ∧
    ((IntegratedString.lt (IntegratedString.mk [98]) (IntegratedString.mk [97]) = some true ∧
        IntegratedString.lt (IntegratedString.mk [97]) (IntegratedString.mk [98]) = some false ∧
        stripProhibited (IntegratedString.mk [98]).content ≠
          stripProhibited (IntegratedString.mk [97]).content) ∨
      (IntegratedString.lt (IntegratedString.mk [97]) (IntegratedString.mk [98]) = some true ∧
        IntegratedString.lt (IntegratedString.mk [98]) (IntegratedString.mk [97]) = some false ∧
        stripProhibited (IntegratedString.mk [98]).content ≠
          stripProhibited (IntegratedString.mk [97]).content) ∨
      (stripProhibited (IntegratedString.mk [98]).content =
          stripProhibited (IntegratedString.mk [97]).content ∧
        IntegratedString.lt (IntegratedString.mk [98]) (IntegratedString.mk [97]) = some false ∧
        IntegratedString.lt (IntegratedString.mk [97]) (IntegratedString.mk [98]) = some false)) :=
  ⟨by decide, by decide, by decide, by decide, by decide, by decide,
    c3_forward_trichotomy (IntegratedString.mk [98]) (IntegratedString.mk [97])
      (by decide) (by decide) (by decide) (by decide) (by decide) (by decide)⟩

/-- Claim C4: the backward comparator coincides with the forward comparator
applied to the character-reversed view contents. -/
theorem c4_backward_eq_forward_on_reversed (a b : IntegratedString)
    (ha : a.getSize < SIZE_T_MOD) (hb : b.getSize < SIZE_T_MOD) :
    a.compareReversed b =
      IntegratedString.lt (IntegratedString.mk a.content.reverse)
        (IntegratedString.mk b.content.reverse) := by
  have ha' : (IntegratedString.mk a.content.reverse).getSize < SIZE_T_MOD := by
    show a.content.reverse.length < SIZE_T_MOD
    rw [List.length_reverse]
    exact ha
  have hb' : (IntegratedString.mk b.content.reverse).getSize < SIZE_T_MOD := by
    show b.content.reverse.length < SIZE_T_MOD
    rw [List.length_reverse]
    exact hb
  rw [compareReversed_char a b ha hb]
  rw [lt_char (IntegratedString.mk a.content.reverse) (IntegratedString.mk b.content.reverse)
    ha' hb']

/-- Claim C4 witness: the identity at two concrete views. -/
theorem c4_witness :
    (IntegratedString.mk [97, 98]).getSize < SIZE_T_MOD ∧
    (IntegratedString.mk [99]).getSize < SIZE_T_MOD ∧
    IntegratedString.compareReversed (IntegratedString.mk [97, 98]) (IntegratedString.mk [99]) =
      IntegratedString.lt (IntegratedString.mk (IntegratedString.mk [97, 98]).content.reverse)
        (IntegratedString.mk (IntegratedString.mk [99]).content.reverse) :=
  ⟨by decide, by decide,
    c4_backward_eq_forward_on_reversed (IntegratedString.mk [97, 98]) (IntegratedString.mk [99])
      (by decide) (by decide)⟩

/-- Claim C5 (code bug): on a loaded buffer whose split lines are all empty —
the file holding a marker unit followed by one newline splits into two empty
views and `nLines_ = 2` — the trimming loop of `Text::shrinkEmptyLines`
decrements `nLines_` to zero and then evaluates `strings_[nLines_ - 1]`, i.e.
`strings_[SIZE_MAX]`, before testing `nLines_ > 0`: an out-of-bounds read,
which the checked model reports as `none` instead of a final line count. -/
theorem c5_shrink_reads_out_of_bounds :
    Text.separateBufferIntoLines [65279, 10] =
      some [IntegratedString.mk [], IntegratedString.mk []] ∧
    nLinesOf [65279, 10] = 2 ∧
    shrinkEmptyLines [IntegratedString.mk [], IntegratedString.mk []] 2 = none := by
  refine ⟨by decide, by decide, by decide⟩

/-- Claim C6, counterexample: the trailing separator unit emitted by the
renderer is `UTF16_NEWLINE`, and that constant equals the plain newline
0x000A — it is not a distinct reserved value. -/
theorem c6_counterexample :
    Text.printToFile (Text.mk [65279] [IntegratedString.mk [97]] []) = [65279, 97, 10] ∧
    UTF16_NEWLINE = 10 := by
  constructor
  · decide
  · rfl

/-- Claim C6 (amended): each rendering pass emits exactly one leading unit
from the buffer start, then every view's content followed by exactly one
trailing separator unit whose value is the plain newline 0x000A (the wide
constant truncates to it). -/
theorem c6_render_framing (t : Text) :
    t.printToFile = t.buffer.take 1 ++
      (t.strings.map (fun s => s.content ++ [10])).flatten := rfl

/-- Claim C7: taking a snapshot, reordering with any comparator, then
restoring the snapshot reproduces exactly the table at snapshot time — the
snapshot is an independent copy of the order. -/
theorem c7_snapshot_reorder_restore (t : Text)
    (comp : IntegratedString → IntegratedString → Bool) :
    (t.sort comp).setOrder t.getOrder = some t := by
  have hc : (Text.getOrder t).lines.length = (t.sort comp).strings.length := by
    show t.strings.length = (sortLines comp t.strings).length
    exact (sortLines_length comp t.strings).symm
  unfold Text.setOrder
  rw [if_pos hc]
  rfl

/-- Claim C8, counterexample: the split of the buffer `[97, 98, 10, 99]` does
not give the lines between separators starting at start-of-file — the first
unit (97) is skipped, the first produced line is `[98]`, not `[97, 98]`. -/
theorem c8_counterexample :
    Text.separateBufferIntoLines [97, 98, 10, 99] ≠
      some (linesFromFileStart [97, 98, 10, 99]) := by
  decide

/-- Claim C8 (amended): for a loaded buffer whose first unit is not a
separator and that holds no NUL unit, the split produces exactly the code
units between consecutive separators of the buffer past its first unit (the
leading marker slot): joining the lines with the separator reproduces the
buffer minus its first unit, and no produced line contains a separator. -/
theorem c8_split_between_separators (buffer : List Nat)
    (hhead : buffer.head? ≠ some 10) (hnul : (0 : Nat) ∉ buffer) :
    ∃ lines : List IntegratedString,
      Text.separateBufferIntoLines buffer = some lines ∧
      intercalateSep 10 (lines.map IntegratedString.content) = buffer.drop 1 ∧
      ∀ l ∈ lines, (10 : Nat) ∉ l.content := by
  have htake : buffer.takeWhile (fun c => c != 0) = buffer := by
    apply List.takeWhile_eq_self_iff.mpr
    intro x hx
    simp only [bne_iff_ne, ne_eq]
    intro h0
    exact hnul (h0 ▸ hx)
  have hcount : buffer.count 10 = (buffer.drop 1).count 10 := by
    cases buffer with
    | nil => rfl
    | cons c rest =>
      have hc : (10 : Nat) ≠ c := by
        intro h
        exact hhead (by rw [← h]; rfl)
      show (c :: rest).count 10 = rest.count 10
      exact List.count_cons_of_ne hc rest
  have hwl : ((separateLoop [] (buffer.drop 1)).map IntegratedString.mk).length =
      nLinesOf buffer := by
    rw [List.length_map, separateLoop_length]
    unfold nLinesOf utf16_count
    rw [htake, hcount]
  refine ⟨(separateLoop [] (buffer.drop 1)).map IntegratedString.mk, ?_, ?_, ?_⟩
  · unfold Text.separateBufferIntoLines
    rw [if_pos (le_of_eq hwl)]
    rw [hwl, Nat.sub_self, List.replicate_zero, List.append_nil]
  · rw [List.map_map]
    rw [show IntegratedString.content ∘ IntegratedString.mk = id from rfl, List.map_id]
    have h := separateLoop_intercalate (buffer.drop 1) []
    simpa using h
  · intro l hl
    rcases List.mem_map.mp hl with ⟨l2, hl2, rfl⟩
    exact separateLoop_no_sep (buffer.drop 1) [] (by simp) l2 hl2

/-- Claim C8 witness: the amended split property at a concrete buffer. -/
theorem c8_witness :
    ([97, 10, 98] : List Nat).head? ≠ some 10 ∧
    (0 : Nat) ∉ ([97, 10, 98] : List Nat) ∧
    (∃ lines : List IntegratedString,
      Text.separateBufferIntoLines [97, 10, 98] = some lines ∧
      intercalateSep 10 (lines.map IntegratedString.content) =
        ([97, 10, 98] : List Nat).drop 1 ∧
      ∀ l ∈ lines, (10 : Nat) ∉ l.content) :=
  ⟨by decide, by decide, c8_split_between_separators [97, 10, 98] (by decide) (by decide)⟩

/-- Claim C9: restoring a snapshot whose length differs from the table's line
count is rejected by the size assertion, modelled as a failing (`none`)
result, before any mutation of the current order. -/
theorem c9_restore_size_mismatch (t : Text) (order : LineOrder)
    (h : order.lines.length ≠ t.strings.length) :
    t.setOrder order = none := by
  unfold Text.setOrder
  rw [if_neg h]

/-- Claim C9 witness: a one-line table rejects an empty snapshot. -/
theorem c9_witness :
    (LineOrder.mk []).lines.length ≠
      (Text.mk [] [IntegratedString.mk [97]] []).strings.length ∧
    Text.setOrder (Text.mk [] [IntegratedString.mk [97]] []) (LineOrder.mk []) = none :=
  ⟨by decide,
    c9_restore_size_mismatch (Text.mk [] [IntegratedString.mk [97]] []) (LineOrder.mk [])
      (by decide)⟩

/-- Claim C10: the backward comparator is total on bounded views, including
zero-length ones (where the start offset `getSize() - 1` wraps around): every
buffer access stays within the view, so the checked run never fails and
returns a defined boolean. -/
theorem c10_backward_total (a b : IntegratedString)
    (ha : a.getSize < SIZE_T_MOD) (hb : b.getSize < SIZE_T_MOD) :
    ∃ r : Bool, a.compareReversed b = some r :=
  ⟨unitLexLt (stripProhibited a.content.reverse) (stripProhibited b.content.reverse),
    compareReversed_char a b ha hb⟩

/-- Claim C10 witness: totality at a zero-length left view, where the start
offset wraps to `SIZE_MAX`. -/
theorem c10_witness :
    (IntegratedString.mk []).getSize < SIZE_T_MOD ∧
    (IntegratedString.mk [97]).getSize < SIZE_T_MOD ∧
    (∃ r : Bool,
      IntegratedString.compareReversed (IntegratedString.mk []) (IntegratedString.mk [97]) =
        some r) :=
  ⟨by decide, by decide,
    c10_backward_total (IntegratedString.mk []) (IntegratedString.mk [97])
      (by decide) (by decide)⟩

end OneginSort
